import Mathlib

/-!
Shallow embedding of the analytical core of the `egypt` process-mining
repository: the temporal and existential dependency analyzers
(`src/dependency_types/temporal.rs`, `src/dependency_types/existential.rs`)
and the extended prefix automaton with its entropy metric (`src/lib.rs`).

Machine floats (`f64`) are modelled by `ℚ` for ratio/threshold arithmetic
(all quantities are ratios of small integer counts) and by `ℝ` for the
logarithmic entropy formula.  Rust panics (`assert!`, `unreachable!`) are
modelled by `Except String`.
-/

namespace Egypt

/-- Decidable equality on `Except`, used to evaluate the embedded (panic-aware)
functions on concrete inputs. -/
instance {ε α : Type} [DecidableEq ε] [DecidableEq α] : DecidableEq (Except ε α) := fun a b =>
  match a, b with
  | .error e, .error f => decidable_of_iff (e = f) (by simp)
  | .ok x, .ok y => decidable_of_iff (x = y) (by simp)
  | .error _, .ok _ => isFalse (by simp)
  | .ok _, .error _ => isFalse (by simp)

namespace Temporal

/-- `Direction` from `temporal.rs`. -/
inductive Direction where
  | forward
  | backward
  deriving DecidableEq, Repr

/-- `DependencyType` from `temporal.rs` (`Direct` = adjacent, `Eventual` otherwise). -/
inductive DependencyType where
  | direct
  | eventual
  deriving DecidableEq, Repr

/-- `TemporalDependency` from `temporal.rs`. -/
structure TemporalDependency where
  «from» : String
  «to» : String
  dependency_type : DependencyType
  direction : Direction
  deriving DecidableEq, Repr

/-- The two position-index lists collected by the first loop of
`check_trace_dependency`: indices `i` with `trace[i] == from` go to
`from_positions`; indices with `trace[i] != from` but `trace[i] == to`
go to `to_positions` (the `else if` shadows the `to` branch when
`from == to`). -/
def fromPositions («from» : String) (trace : List String) : List Nat :=
  trace.enum.filterMap (fun p => if p.2 = «from» then some p.1 else none)

/-- See `fromPositions`; the `else if` branch of the same loop. -/
def toPositions («from» «to» : String) (trace : List String) : List Nat :=
  trace.enum.filterMap
    (fun p => if p.2 = «from» then none else if p.2 = «to» then some p.1 else none)

/-- The `while from_index < from_positions.len() && to_index < to_positions.len()`
loop of `check_trace_dependency` together with the two trailing
"handle remaining" loops.  The loop state `(fs, ts)` is the pair of
still-unconsumed suffixes of the two position lists; `lastFrom`/`lastTo`
are `from_positions.last()`/`to_positions.last()` of the full lists,
which the trailing loops consult.  The `Ordering::Equal` arm of the
source is `unreachable!()` (a panic), modelled as `Except.error`; the
two position lists are disjoint by construction (see
`fromPositions_toPositions_disjoint`), so the error never occurs. -/
def mergeLoop (lastFrom lastTo : Option Nat) :
    List Nat → List Nat → Except String (List (DependencyType × Direction))
  | fs, [] =>
      -- handle remaining `from` activities (the remaining-`to` loop is vacuous)
      .ok (fs.filterMap (fun fp =>
        if lastTo.any (fun lt => fp < lt) then
          some (DependencyType.eventual, Direction.forward)
        else none))
  | [], t :: ts =>
      -- handle remaining `to` activities
      .ok ((t :: ts).map (fun tp =>
        if lastFrom.any (fun lf => lf < tp) then
          (DependencyType.eventual, Direction.forward)
        else
          (DependencyType.eventual, Direction.backward)))
  | f :: fs, t :: ts =>
      if f < t then
        (mergeLoop lastFrom lastTo fs ts).map
          (fun rest =>
            ((if t - f = 1 then DependencyType.direct else DependencyType.eventual),
              Direction.forward) :: rest)
      else if t < f then
        (mergeLoop lastFrom lastTo (f :: fs) ts).map
          (fun rest =>
            ((if f - t = 1 then DependencyType.direct else DependencyType.eventual),
              Direction.backward) :: rest)
      else
        .error "unreachable"

/-- `check_trace_dependency` from `temporal.rs`. -/
def check_trace_dependency («from» «to» : String) (trace : List String) :
    Except String (List (DependencyType × Direction)) :=
  let fps := fromPositions «from» trace
  let tps := toPositions «from» «to» trace
  mergeLoop fps.getLast? tps.getLast? fps tps

/-- `classify_dependencies` from `temporal.rs`.  `backward_count` is computed
as `total - forward_count`, and the two ratio tests are tried in order
(Forward first). -/
def classify_dependencies («from» «to» : String)
    (dependencies : List (DependencyType × Direction)) (threshold : ℚ) :
    Option TemporalDependency :=
  if dependencies.isEmpty then none
  else
    let total_count : ℚ := dependencies.length
    let forward_count : ℚ :=
      (dependencies.filter (fun d => d.2 = Direction.forward)).length
    let backward_count : ℚ := total_count - forward_count
    let forwardShare := forward_count / total_count
    let backwardShare := backward_count / total_count
    let direction? : Option Direction :=
      if threshold ≤ forwardShare then some Direction.forward
      else if threshold ≤ backwardShare then some Direction.backward
      else none
    direction?.map (fun direction =>
      let dependency_type :=
        if dependencies.any (fun d => d.1 = DependencyType.eventual) then
          DependencyType.eventual
        else DependencyType.direct
      ⟨«from», «to», dependency_type, direction⟩)

/-- `check_temporal_dependency` from `temporal.rs`: per-trace classifications
are collected (`dependencies.extend`) over all traces, then handed to
`classify_dependencies`.  Note: unlike the existential analyzer, this
function performs no threshold-range assertion. -/
def check_temporal_dependency («from» «to» : String) (traces : List (List String))
    (threshold : ℚ) : Except String (Option TemporalDependency) := do
  let dependencies ← traces.foldlM
    (fun acc trace => do
      let trace_deps ← check_trace_dependency «from» «to» trace
      pure (acc ++ trace_deps))
    []
  pure (classify_dependencies «from» «to» dependencies threshold)

/-- Spec-side total rendering of the two-pointer merge performed by
`check_trace_dependency` (stated for the amended form of the
all-combinations claim): compare the heads of the two position-suffix
lists; a smaller from-position records a Forward classification (Direct
when adjacent) and consumes both heads; a smaller to-position records a
Backward classification (Direct when adjacent) and consumes only the
to-head; leftover from-positions record (Eventual, Forward) exactly when
the last to-position lies after them; leftover to-positions record
(Eventual, Forward) when the last from-position lies before them and
(Eventual, Backward) otherwise.  The equal-heads case cannot occur (the
position lists are disjoint) and is given an arbitrary total value. -/
def traceDepsSpecLoop (lastFrom lastTo : Option Nat) :
    List Nat → List Nat → List (DependencyType × Direction)
  | fs, [] =>
      fs.filterMap (fun fp =>
        if lastTo.any (fun lt => fp < lt) then
          some (DependencyType.eventual, Direction.forward)
        else none)
  | [], t :: ts =>
      (t :: ts).map (fun tp =>
        if lastFrom.any (fun lf => lf < tp) then
          (DependencyType.eventual, Direction.forward)
        else
          (DependencyType.eventual, Direction.backward))
  | f :: fs, t :: ts =>
      if f < t then
        ((if t - f = 1 then DependencyType.direct else DependencyType.eventual),
          Direction.forward) :: traceDepsSpecLoop lastFrom lastTo fs ts
      else if t < f then
        ((if f - t = 1 then DependencyType.direct else DependencyType.eventual),
          Direction.backward) :: traceDepsSpecLoop lastFrom lastTo (f :: fs) ts
      else
        traceDepsSpecLoop lastFrom lastTo fs ts

/-- Spec-side per-trace classification list: the merge of the full
position lists. -/
def traceDepsSpec («from» «to» : String) (trace : List String) :
    List (DependencyType × Direction) :=
  traceDepsSpecLoop (fromPositions «from» trace).getLast?
    (toPositions «from» «to» trace).getLast?
    (fromPositions «from» trace) (toPositions «from» «to» trace)

/-- Modelled from the spec: the classification rule the all-combinations
claim describes — classify every (from-position, to-position) pair of the
trace: (Direct if adjacent else Eventual, Forward) when the from-position
is strictly smaller, (Direct if adjacent else Eventual, Backward) when
strictly greater, skipping equal positions. -/
def allPairsTraceDeps («from» «to» : String) (trace : List String) :
    List (DependencyType × Direction) :=
  (fromPositions «from» trace).flatMap (fun fp =>
    (toPositions «from» «to» trace).filterMap (fun tp =>
      if fp < tp then
        some ((if tp - fp = 1 then DependencyType.direct else DependencyType.eventual),
          Direction.forward)
      else if tp < fp then
        some ((if fp - tp = 1 then DependencyType.direct else DependencyType.eventual),
          Direction.backward)
      else none))

end Temporal

namespace Existential


/-- `Direction` from `existential.rs` (`Both` exists in the taxonomy but is
never produced by `check_existential_dependency`). -/
inductive Direction where
  | forward
  | backward
  | both
  deriving DecidableEq, Repr

/-- `DependencyType` from `existential.rs` (`Nand`/`Or` are reserved and never
produced). -/
inductive DependencyType where
  | implication
  | equivalence
  | negatedEquivalence
  | nand
  | or
  deriving DecidableEq, Repr

/-- `ExistentialDependency` from `existential.rs`. -/
structure ExistentialDependency where
  «from» : String
  «to» : String
  dependency_type : DependencyType
  direction : Direction
  deriving DecidableEq, Repr

/-- `has_implication` from `existential.rs`: the share of traces that either
miss `from` or contain both `from` and `to`.  With no traces the source
computes the `f64` quotient `0.0 / 0.0 = NaN`, and `NaN >= threshold` is
false for every threshold; the `total_traces = 0` guard models that. -/
def has_implication («from» «to» : String) (event_names : List (List String))
    (threshold : ℚ) : Bool :=
  let total_traces := event_names.length
  let valid_traces :=
    (event_names.filter
      (fun trace => if «from» ∈ trace then decide («to» ∈ trace) else true)).length
  if total_traces = 0 then false
  else decide (threshold ≤ (valid_traces : ℚ) / (total_traces : ℚ))

/-- `negated_equivalence` from `existential.rs`; same NaN guard as
`has_implication`. -/
def negated_equivalence («from» «to» : String) (event_names : List (List String))
    (threshold : ℚ) : Bool :=
  let total_traces := event_names.length
  let valid_traces :=
    (event_names.filter
      (fun trace => if «from» ∈ trace then !decide («to» ∈ trace) else true)).length
  if total_traces = 0 then false
  else decide (threshold ≤ (valid_traces : ℚ) / (total_traces : ℚ))

/-- `check_existential_dependency` from `existential.rs`.  The leading
`assert!((0.0..=1.0).contains(&threshold))` is modelled as `Except.error`. -/
def check_existential_dependency («from» «to» : String)
    (traces : List (List String)) (threshold : ℚ) :
    Except String (Option ExistentialDependency) :=
  if ¬ (0 ≤ threshold ∧ threshold ≤ 1) then
    .error "Threshold must be between 0 and 1"
  else
    let implication := has_implication «from» «to» traces threshold
    if implication || has_implication «to» «from» traces threshold then
      .ok (some ⟨«from», «to»,
        if implication && has_implication «to» «from» traces threshold then
          DependencyType.equivalence
        else DependencyType.implication,
        if implication then Direction.forward else Direction.backward⟩)
    else if negated_equivalence «from» «to» traces threshold then
      .ok (some ⟨«from», «to», DependencyType.negatedEquivalence, Direction.forward⟩)
    else
      .ok none

/-- The mirror of an existential dependency under swapping the two
activities: `from`/`to` are exchanged and the direction is flipped for
`Implication` (the only direction-asymmetric kind); `Equivalence` and
`NegatedEquivalence` keep their direction. -/
def mirror (d : ExistentialDependency) : ExistentialDependency :=
  ⟨d.«to», d.«from», d.dependency_type,
    if d.dependency_type = DependencyType.implication then
      match d.direction with
      | Direction.forward => Direction.backward
      | Direction.backward => Direction.forward
      | Direction.both => Direction.both
    else d.direction⟩

/-- Modelled from the spec: `implies(a, b)` holds when the number of traces
missing `a`, plus the number of traces containing both `a` and `b`,
divided by the total trace count, is at least the threshold. -/
def impliesSpec (a b : String) (traces : List (List String)) (threshold : ℚ) : Prop :=
  threshold ≤
    (((traces.filter (fun tr => ¬ a ∈ tr)).length
        + (traces.filter (fun tr => a ∈ tr ∧ b ∈ tr)).length : ℚ)) / (traces.length : ℚ)

/-- Modelled from the spec: negated equivalence holds when the number of
traces missing `a`, plus the number of traces containing `a` but not `b`,
divided by the total trace count, is at least the threshold. -/
def negEqSpec (a b : String) (traces : List (List String)) (threshold : ℚ) : Prop :=
  threshold ≤
    (((traces.filter (fun tr => ¬ a ∈ tr)).length
        + (traces.filter (fun tr => a ∈ tr ∧ ¬ b ∈ tr)).length : ℚ)) / (traces.length : ℚ)

instance (a b traces θ) : Decidable (impliesSpec a b traces θ) := by
  unfold impliesSpec; infer_instance

instance (a b traces θ) : Decidable (negEqSpec a b traces θ) := by
  unfold negEqSpec; infer_instance

end Existential

/-! ### Extended prefix automaton (`src/lib.rs`)

Rust `HashMap<String, _>`s that the code iterates over or measures
(`states`) are modelled as insertion-ordered association lists; the
`case → last state` map, which is only point-queried and point-updated,
is modelled as a function `String → Option String`. -/

/-- Association-list lookup (`HashMap::get` / indexing). -/
def mapLookup {β : Type} (m : List (String × β)) (k : String) : Option β :=
  (m.find? (fun kv => kv.1 = k)).map (fun kv => kv.2)

/-- Association-list insert (`HashMap::insert`): replaces the value at an
existing key, otherwise appends. -/
def mapInsert {β : Type} (m : List (String × β)) (k : String) (v : β) :
    List (String × β) :=
  if m.any (fun kv => kv.1 = k) then
    m.map (fun kv => if kv.1 = k then (k, v) else kv)
  else m ++ [(k, v)]

/-- In-place value update (`HashMap::get_mut` followed by a mutation).  The
source `unwrap`s the lookup; the key is always present there (it is either
an existing transition target or the state just inserted), so the absent
case never occurs and is modelled as a no-op. -/
def mapUpdate {β : Type} (m : List (String × β)) (k : String) (f : β → β) :
    List (String × β) :=
  m.map (fun kv => if kv.1 = k then (kv.1, f kv.2) else kv)

/-- `Event` from `lib.rs`. -/
structure Event where
  «case» : String
  activity : Char
  predecessor : Option String
  deriving DecidableEq, Repr

/-- `State` from `lib.rs` (`sequences: HashSet<Event>` as a duplicate-free
list). -/
structure State where
  partition : Option Nat
  sequences : List Event
  deriving DecidableEq, Repr

/-- `ExtendedPrefixAutomaton` from `lib.rs`. -/
structure ExtendedPrefixAutomaton where
  states : List (String × State)
  transitions : List (String × Char × String)
  activities : List Char
  root : String
  deriving DecidableEq, Repr

/-- `HashSet::insert` on the event set of a state. -/
def insertEvent (e : Event) (s : List Event) : List Event :=
  if e ∈ s then s else s ++ [e]

/-- `HashSet::insert` on the automaton alphabet. -/
def insertChar (c : Char) (s : List Char) : List Char :=
  if c ∈ s then s else s ++ [c]

/-- `ExtendedPrefixAutomaton::new`: a single unpartitioned root state. -/
def ExtendedPrefixAutomaton.new : ExtendedPrefixAutomaton :=
  { states := [("root", { partition := none, sequences := [] })],
    transitions := []
    activities := []
    root := "root" }

/-- `epa.states.values().filter_map(|s| s.partition).max().unwrap_or(0)`:
the largest partition number among the partitioned states (`0` when there
is none; over naturals `max().unwrap_or(0)` is the fold of `max` with
base `0`). -/
def maxPartition (epa : ExtendedPrefixAutomaton) : Nat :=
  (epa.states.filterMap (fun kv => kv.2.partition)).foldr max 0

/-- The body of the per-event loop of `ExtendedPrefixAutomaton::build`.  The
accumulator carries the automaton under construction and the
`last_at : case → last state` map. -/
def buildStep (acc : ExtendedPrefixAutomaton × (String → Option String))
    (event : Event) : ExtendedPrefixAutomaton × (String → Option String) :=
  let epa := acc.1
  let last_at := acc.2
  let pred_at := ((event.predecessor.bind last_at).getD epa.root)
  match (epa.transitions.find?
      (fun t => t.1 = pred_at ∧ t.2.1 = event.activity)).map
      (fun t => t.2.2) with
  | some target =>
      -- existing transition: reuse its target, create nothing
      ({ epa with
          states := mapUpdate epa.states target
            (fun s => { s with sequences := insertEvent event s.sequences }) },
        fun c => if c = event.«case» then some target else last_at c)
  | none =>
      let new_state_id := "s" ++ toString epa.states.length
      let current_c : Nat :=
        if pred_at = epa.root then 1
        else if epa.transitions.any (fun t => t.1 = pred_at) then
          maxPartition epa + 1
        else ((mapLookup epa.states pred_at).bind
          (fun s => s.partition)).getD 0
      let epa' :=
        { epa with
            states := mapUpdate
              (mapInsert epa.states new_state_id
                { partition := some current_c, sequences := [] })
              new_state_id
              (fun s => { s with sequences := insertEvent event s.sequences })
            transitions := epa.transitions ++ [(pred_at, event.activity, new_state_id)]
            activities := insertChar event.activity epa.activities }
      (epa', fun c => if c = event.«case» then some new_state_id else last_at c)

/-- `ExtendedPrefixAutomaton::build`: fold `buildStep` over all events of all
traces, in input order. -/
def ExtendedPrefixAutomaton.build (plain_log : List (List Event)) :
    ExtendedPrefixAutomaton :=
  (plain_log.foldl (fun acc trace => trace.foldl buildStep acc)
    (ExtendedPrefixAutomaton.new, fun _ => none)).1

/-- `ExtendedPrefixAutomaton::variant_entropy` from `lib.rs`, with `f64`
modelled by `ℝ` and `f64::log(10.0)` by `Real.logb 10`.  The `HashMap`
fold that tallies `partition_sizes` (one `+= 1` per partitioned state)
yields the occurrence count of every distinct partition number; summing
its values is order-independent, so it is rendered as the sum over
`dedup` of the partition-value list. -/
noncomputable def variant_entropy (epa : ExtendedPrefixAutomaton) : ℝ :=
  let s : ℝ := epa.states.length
  let s := if 1 < s then s - 1 else s
  let ps := epa.states.filterMap (fun kv => kv.2.partition)
  let sum_term : ℝ :=
    (ps.dedup.map (fun p => ((ps.count p : ℝ) * Real.logb 10 (ps.count p)))).sum
  s * Real.logb 10 s - sum_term

end Egypt


/-! ## Theorems -/

namespace Egypt

namespace Temporal

section

attribute [local semireducible] Rat.add Rat.mul Rat.inv Rat.sub

/-! ### Position lists and panic-freedom of the temporal merge -/

theorem mem_fromPositions {f : String} {tr : List String} {i : Nat}
    (h : i ∈ fromPositions f tr) : tr[i]? = some f := by
  simp only [fromPositions, List.mem_filterMap] at h
  obtain ⟨⟨j, a⟩, hmem, hf⟩ := h
  by_cases ha : a = f
  · subst ha
    rw [if_pos rfl] at hf
    obtain rfl := Option.some.inj hf
    exact List.mk_mem_enum_iff_getElem?.mp hmem
  · simp [ha] at hf

theorem mem_toPositions {f t : String} {tr : List String} {i : Nat}
    (h : i ∈ toPositions f t tr) : tr[i]? = some t ∧ t ≠ f := by
  simp only [toPositions, List.mem_filterMap] at h
  obtain ⟨⟨j, a⟩, hmem, hf⟩ := h
  by_cases ha : a = f
  · simp [ha] at hf
  · by_cases ht : a = t
    · subst ht
      rw [if_neg ha, if_pos rfl] at hf
      obtain rfl := Option.some.inj hf
      exact ⟨List.mk_mem_enum_iff_getElem?.mp hmem, ha⟩
    · simp [ha, ht] at hf

theorem positions_disjoint (f t : String) (tr : List String) :
    ∀ i ∈ fromPositions f tr, ∀ j ∈ toPositions f t tr, i ≠ j := by
  intro i hi j hj hij
  subst hij
  obtain ⟨hjt, hne⟩ := mem_toPositions hj
  have hif := mem_fromPositions hi
  rw [hif] at hjt
  exact hne (Option.some.inj hjt).symm

theorem mergeLoop_eq_spec (lf lt : Option Nat) :
    ∀ (ts fs : List Nat), (∀ i ∈ fs, ∀ j ∈ ts, i ≠ j) →
      mergeLoop lf lt fs ts = .ok (traceDepsSpecLoop lf lt fs ts) := by
  intro ts
  induction ts with
  | nil =>
    intro fs _
    cases fs <;> rfl
  | cons t ts ih =>
    intro fs h
    cases fs with
    | nil => rfl
    | cons f fs =>
      have hft : f ≠ t := h f (by simp) t (by simp)
      have hrest : ∀ i ∈ fs, ∀ j ∈ ts, i ≠ j := fun i hi j hj =>
        h i (List.mem_cons_of_mem _ hi) j (List.mem_cons_of_mem _ hj)
      rcases Nat.lt_trichotomy f t with hlt | heq | hgt
      · rw [mergeLoop, traceDepsSpecLoop]
        rw [if_pos hlt, if_pos hlt, ih fs hrest]
        rfl
      · exact absurd heq hft
      · have hnlt : ¬ f < t := by omega
        have hcons : ∀ i ∈ f :: fs, ∀ j ∈ ts, i ≠ j := fun i hi j hj =>
          h i hi j (List.mem_cons_of_mem _ hj)
        rw [mergeLoop, traceDepsSpecLoop]
        rw [if_neg hnlt, if_pos hgt, if_neg hnlt, if_pos hgt, ih (f :: fs) hcons]
        rfl

theorem check_trace_dependency_eq_spec (f t : String) (tr : List String) :
    check_trace_dependency f t tr = .ok (traceDepsSpec f t tr) := by
  unfold check_trace_dependency traceDepsSpec
  exact mergeLoop_eq_spec _ _ _ _ (fun i hi j hj => positions_disjoint f t tr i hi j hj)

theorem gather_eq (f t : String) (traces : List (List String)) :
    ∀ acc : List (DependencyType × Direction),
      traces.foldlM
        (fun acc tr => do
          let trace_deps ← check_trace_dependency f t tr
          pure (acc ++ trace_deps))
        acc
      = .ok (acc ++ (traces.map (traceDepsSpec f t)).flatten) := by
  induction traces with
  | nil =>
    intro acc
    show Except.ok acc = _
    simp
  | cons tr trs ih =>
    intro acc
    rw [List.foldlM_cons, check_trace_dependency_eq_spec]
    show trs.foldlM _ (acc ++ traceDepsSpec f t tr) = _
    rw [ih (acc ++ traceDepsSpec f t tr)]
    simp [List.append_assoc]

/-- Helper equation: `check_temporal_dependency` never panics and equals the
classification of the concatenated per-trace merge results. -/
theorem check_temporal_dependency_eq_spec (f t : String) (traces : List (List String))
    (threshold : ℚ) :
    check_temporal_dependency f t traces threshold =
      .ok (classify_dependencies f t ((traces.map (traceDepsSpec f t)).flatten) threshold) := by
  unfold check_temporal_dependency
  rw [gather_eq]
  rfl

/-! ### Self-pairs and classification -/

theorem toPositions_self (a : String) (tr : List String) : toPositions a a tr = [] := by
  unfold toPositions
  rw [List.filterMap_eq_nil_iff]
  intro p _
  by_cases hp : p.2 = a <;> simp [hp]

theorem traceDepsSpec_self (a : String) (tr : List String) : traceDepsSpec a a tr = [] := by
  unfold traceDepsSpec
  rw [toPositions_self]
  rw [traceDepsSpecLoop]
  simp

theorem classify_dependencies_eq (f t : String)
    (deps : List (DependencyType × Direction)) (θ : ℚ) :
    classify_dependencies f t deps θ =
      if deps.isEmpty then none
      else if θ ≤ ((deps.filter (fun d => d.2 = Direction.forward)).length : ℚ)
          / (deps.length : ℚ) then
        some ⟨f, t,
          (if deps.any (fun d => d.1 = DependencyType.eventual) then
            DependencyType.eventual else DependencyType.direct),
          Direction.forward⟩
      else if θ ≤ ((deps.length : ℚ)
            - ((deps.filter (fun d => d.2 = Direction.forward)).length : ℚ))
          / (deps.length : ℚ) then
        some ⟨f, t,
          (if deps.any (fun d => d.1 = DependencyType.eventual) then
            DependencyType.eventual else DependencyType.direct),
          Direction.backward⟩
      else none := by
  simp only [classify_dependencies]
  split_ifs <;> rfl

theorem classify_dependencies_mono {f t : String}
    {deps : List (DependencyType × Direction)} {t1 t2 : ℚ} (h12 : t1 ≤ t2)
    {d : TemporalDependency} (h : classify_dependencies f t deps t2 = some d) :
    (classify_dependencies f t deps t1).isSome = true := by
  rw [classify_dependencies_eq] at h ⊢
  by_cases hb : deps.isEmpty = true
  · simp [hb] at h
  · simp only [hb, if_false] at h ⊢
    set F := ((deps.filter (fun d => d.2 = Direction.forward)).length : ℚ)
      / (deps.length : ℚ) with hF
    set B := ((deps.length : ℚ)
        - ((deps.filter (fun d => d.2 = Direction.forward)).length : ℚ))
      / (deps.length : ℚ) with hB
    by_cases h2f : t2 ≤ F
    · have h1f : t1 ≤ F := le_trans h12 h2f
      simp [h1f]
    · by_cases h2b : t2 ≤ B
      · by_cases h1f : t1 ≤ F
        · simp [h1f]
        · have h1b : t1 ≤ B := le_trans h12 h2b
          simp [h1f, h1b]
      · simp [h2f, h2b] at h

theorem length_filter_forward_add_backward
    (deps : List (DependencyType × Direction)) :
    (deps.filter (fun d => d.2 = Direction.forward)).length
      + (deps.filter (fun d => d.2 = Direction.backward)).length = deps.length := by
  induction deps with
  | nil => rfl
  | cons d deps ih =>
    cases hd : d.2 <;> simp [List.filter_cons, hd] <;> omega

end

end Temporal

namespace Existential

section

attribute [local semireducible] Rat.add Rat.mul Rat.inv Rat.sub

/-! ### Existential analyzer: monotonicity, symmetry, spec bridge -/

theorem has_implication_mono {a b : String} {traces : List (List String)}
    {t1 t2 : ℚ} (h12 : t1 ≤ t2) (h : has_implication a b traces t2 = true) :
    has_implication a b traces t1 = true := by
  by_cases h0 : traces.length = 0
  · simp only [has_implication, h0, if_true, if_pos] at h
    exact absurd h (by simp)
  · simp only [has_implication, h0, if_false, decide_eq_true_eq] at h ⊢
    exact le_trans h12 h

theorem negated_equivalence_mono {a b : String} {traces : List (List String)}
    {t1 t2 : ℚ} (h12 : t1 ≤ t2) (h : negated_equivalence a b traces t2 = true) :
    negated_equivalence a b traces t1 = true := by
  by_cases h0 : traces.length = 0
  · simp only [negated_equivalence, h0, if_true, if_pos] at h
    exact absurd h (by simp)
  · simp only [negated_equivalence, h0, if_false, decide_eq_true_eq] at h ⊢
    exact le_trans h12 h

theorem negated_equivalence_symm (a b : String) (traces : List (List String))
    (θ : ℚ) : negated_equivalence a b traces θ = negated_equivalence b a traces θ := by
  unfold negated_equivalence
  have hpt : ∀ tr : List String,
      (if a ∈ tr then !decide (b ∈ tr) else true)
        = (if b ∈ tr then !decide (a ∈ tr) else true) := by
    intro tr
    by_cases h1 : a ∈ tr <;> by_cases h2 : b ∈ tr <;> simp [h1, h2]
  rw [List.filter_congr (fun tr _ => hpt tr)]

theorem check_existential_dependency_mono {a b : String}
    {traces : List (List String)} {t1 t2 : ℚ}
    (h0 : 0 ≤ t1) (h12 : t1 ≤ t2) (h2 : t2 ≤ 1)
    (h : (check_existential_dependency a b traces t2).toOption.join.isSome = true) :
    (check_existential_dependency a b traces t1).toOption.join.isSome = true := by
  unfold check_existential_dependency at h ⊢
  rw [if_neg (not_not_intro ⟨le_trans h0 h12, h2⟩)] at h
  rw [if_neg (not_not_intro ⟨h0, le_trans h12 h2⟩)]
  by_cases hor1 : (has_implication a b traces t1 || has_implication b a traces t1) = true
  · simp [hor1, Except.toOption, Option.join]
  · have hab1 : ¬ has_implication a b traces t1 = true := fun hx => hor1 (by simp [hx])
    have hba1 : ¬ has_implication b a traces t1 = true := fun hx => hor1 (by simp [hx])
    have hab2 : ¬ has_implication a b traces t2 = true := fun hx =>
      hab1 (has_implication_mono h12 hx)
    have hba2 : ¬ has_implication b a traces t2 = true := fun hx =>
      hba1 (has_implication_mono h12 hx)
    simp only [hab2, hba2, Bool.false_or, Bool.or_self, if_false,
      Bool.not_eq_true] at h
    by_cases hneg2 : negated_equivalence a b traces t2 = true
    · have hneg1 := negated_equivalence_mono h12 hneg2
      simp [hor1, hneg1, Except.toOption, Option.join]
    · rw [if_neg (by simp [hab2, hba2]), if_neg hneg2] at h
      simp [Except.toOption, Option.join] at h

theorem length_filter_vacuous_split (p q : List String → Prop)
    [DecidablePred p] [DecidablePred q] (traces : List (List String)) :
    (traces.filter (fun tr => if p tr then decide (q tr) else true)).length
      = (traces.filter (fun tr => ¬ p tr)).length
        + (traces.filter (fun tr => p tr ∧ q tr)).length := by
  induction traces with
  | nil => rfl
  | cons tr trs ih =>
    simp only [List.filter_cons]
    by_cases hp : p tr <;> by_cases hq : q tr <;>
      simp [hp, hq] at ih ⊢ <;> omega

theorem length_filter_implication_split (a b : String)
    (traces : List (List String)) :
    (traces.filter (fun tr => if a ∈ tr then decide (b ∈ tr) else true)).length
      = (traces.filter (fun tr => ¬ a ∈ tr)).length
        + (traces.filter (fun tr => a ∈ tr ∧ b ∈ tr)).length :=
  length_filter_vacuous_split (fun tr => a ∈ tr) (fun tr => b ∈ tr) traces

theorem length_filter_negEq_split (a b : String)
    (traces : List (List String)) :
    (traces.filter (fun tr => if a ∈ tr then !decide (b ∈ tr) else true)).length
      = (traces.filter (fun tr => ¬ a ∈ tr)).length
        + (traces.filter (fun tr => a ∈ tr ∧ ¬ b ∈ tr)).length := by
  have hpt : ∀ tr : List String,
      (if a ∈ tr then !decide (b ∈ tr) else true)
        = (if a ∈ tr then decide (¬ b ∈ tr) else true) := by
    intro tr
    by_cases h : b ∈ tr <;> simp [h]
  rw [List.filter_congr (fun tr _ => hpt tr)]
  exact length_filter_vacuous_split (fun tr => a ∈ tr) (fun tr => ¬ b ∈ tr) traces

theorem has_implication_iff (a b : String) (traces : List (List String))
    (θ : ℚ) (hne : traces ≠ []) :
    has_implication a b traces θ = true ↔ impliesSpec a b traces θ := by
  have h0 : traces.length ≠ 0 := by simpa [List.length_eq_zero] using hne
  simp only [has_implication, impliesSpec, h0, if_false, decide_eq_true_eq,
    length_filter_implication_split]
  push_cast
  rfl

theorem negated_equivalence_iff (a b : String) (traces : List (List String))
    (θ : ℚ) (hne : traces ≠ []) :
    negated_equivalence a b traces θ = true ↔ negEqSpec a b traces θ := by
  have h0 : traces.length ≠ 0 := by simpa [List.length_eq_zero] using hne
  simp only [negated_equivalence, negEqSpec, h0, if_false, decide_eq_true_eq,
    length_filter_negEq_split]
  push_cast
  rfl

end

end Existential

/-! ### Automaton helpers -/

theorem lookup_replace {β : Type} (k : String) (v : β) :
    ∀ m : List (String × β), m.any (fun kv => kv.1 = k) = true →
      mapLookup (m.map (fun kv => if kv.1 = k then (k, v) else kv)) k = some v := by
  intro m
  induction m with
  | nil => intro h; simp at h
  | cons kv m ih =>
    intro h
    by_cases hk : kv.1 = k
    · simp [mapLookup, List.find?_cons, hk]
    · have h' : m.any (fun kv => kv.1 = k) = true := by simpa [hk] using h
      have := ih h'
      simp only [mapLookup, List.map_cons, if_neg hk] at this ⊢
      rw [List.find?_cons_of_neg _ (by simpa using hk)]
      exact this

theorem lookup_append_missing {β : Type} (k : String) (v : β) :
    ∀ m : List (String × β), m.any (fun kv => kv.1 = k) = false →
      mapLookup (m ++ [(k, v)]) k = some v := by
  intro m
  induction m with
  | nil => intro _; simp [mapLookup, List.find?_cons]
  | cons kv m ih =>
    intro h
    rw [List.any_cons] at h
    have hk : ¬ kv.1 = k := by simpa using (Bool.or_eq_false_iff.mp h).1
    have h' : m.any (fun kv => kv.1 = k) = false := (Bool.or_eq_false_iff.mp h).2
    have := ih h'
    simp only [mapLookup, List.cons_append] at this ⊢
    rw [List.find?_cons_of_neg _ (by simpa using hk)]
    exact this

theorem mapLookup_mapInsert_self {β : Type} (m : List (String × β)) (k : String)
    (v : β) : mapLookup (mapInsert m k v) k = some v := by
  unfold mapInsert
  by_cases h : m.any (fun kv => kv.1 = k) = true
  · rw [if_pos h]
    exact lookup_replace k v m h
  · rw [if_neg h]
    exact lookup_append_missing k v m (Bool.eq_false_iff.mpr h)

theorem mapLookup_mapUpdate_self {β : Type} (m : List (String × β)) (k : String)
    (f : β → β) : mapLookup (mapUpdate m k f) k = (mapLookup m k).map f := by
  unfold mapLookup mapUpdate
  induction m with
  | nil => rfl
  | cons kv m ih =>
    by_cases hk : kv.1 = k
    · simp [List.find?_cons, hk]
    · simp only [List.map_cons, if_neg hk]
      rw [List.find?_cons_of_neg _ (by simpa using hk),
        List.find?_cons_of_neg _ (by simpa using hk)]
      exact ih

theorem mapUpdate_keys {β : Type} (m : List (String × β)) (k : String) (f : β → β) :
    (mapUpdate m k f).map (fun kv => kv.1) = m.map (fun kv => kv.1) := by
  unfold mapUpdate
  rw [List.map_map]
  apply List.map_congr_left
  intro kv _
  by_cases hk : kv.1 = k <;> simp [hk]

theorem buildStep_pairwise {acc : ExtendedPrefixAutomaton × (String → Option String)}
    {ev : Event}
    (h : acc.1.transitions.Pairwise (fun t1 t2 => ¬ (t1.1 = t2.1 ∧ t1.2.1 = t2.2.1))) :
    ((buildStep acc ev).1.transitions).Pairwise
      (fun t1 t2 => ¬ (t1.1 = t2.1 ∧ t1.2.1 = t2.2.1)) := by
  unfold buildStep
  dsimp only
  split
  · exact h
  next hnone =>
    dsimp only
    rw [List.pairwise_append]
    refine ⟨h, List.pairwise_singleton _ _, ?_⟩
    intro t1 ht1 t2 ht2
    simp only [List.mem_singleton] at ht2
    subst ht2
    have hfind := List.find?_eq_none.mp (Option.map_eq_none'.mp hnone) t1 ht1
    simpa using hfind

theorem foldl_buildStep_pairwise (evs : List Event)
    (acc : ExtendedPrefixAutomaton × (String → Option String))
    (h : acc.1.transitions.Pairwise (fun t1 t2 => ¬ (t1.1 = t2.1 ∧ t1.2.1 = t2.2.1))) :
    ((evs.foldl buildStep acc).1.transitions).Pairwise
      (fun t1 t2 => ¬ (t1.1 = t2.1 ∧ t1.2.1 = t2.2.1)) := by
  induction evs generalizing acc with
  | nil => exact h
  | cons e evs ih => exact ih _ (buildStep_pairwise h)

theorem foldl_trace_buildStep_pairwise (log : List (List Event))
    (acc : ExtendedPrefixAutomaton × (String → Option String))
    (h : acc.1.transitions.Pairwise (fun t1 t2 => ¬ (t1.1 = t2.1 ∧ t1.2.1 = t2.2.1))) :
    (((log.foldl (fun acc tr => tr.foldl buildStep acc) acc)).1.transitions).Pairwise
      (fun t1 t2 => ¬ (t1.1 = t2.1 ∧ t1.2.1 = t2.2.1)) := by
  induction log generalizing acc with
  | nil => exact h
  | cons tr log ih => exact ih _ (foldl_buildStep_pairwise tr acc h)

theorem sum_dedup_eq_sum_toFinset (ps : List Nat) (f : Nat → ℝ) :
    (ps.dedup.map f).sum = ∑ p ∈ ps.toFinset, f p := by
  have hfin : ps.dedup.toFinset = ps.toFinset := by
    ext x
    simp [List.mem_dedup]
  rw [← hfin, List.sum_toFinset _ ps.nodup_dedup]

end Egypt

/-! ## Claim theorems -/

namespace Egypt

section

attribute [local semireducible] Rat.add Rat.mul Rat.inv Rat.sub

/-- C1, counterexample: `check_trace_dependency` does not classify every
combination of a from-position and a to-position.  On the trace
`A B C A C` (from = A at 0,3; to = C at 2,4) the code's merge records two
classifications, while the all-combinations rule yields four; the
multisets differ, and at threshold 1 the code reports Eventual/Forward
although classifying the all-combinations aggregate reports nothing. -/
theorem claim1_counterexample :
    Temporal.check_temporal_dependency "A" "C" [["A", "B", "C", "A", "C"]] 1 =
        .ok (some ⟨"A", "C", Temporal.DependencyType.eventual,
          Temporal.Direction.forward⟩)
    ∧ Temporal.check_trace_dependency "A" "C" ["A", "B", "C", "A", "C"] =
        .ok [(Temporal.DependencyType.eventual, Temporal.Direction.forward),
          (Temporal.DependencyType.direct, Temporal.Direction.forward)]
    ∧ Temporal.allPairsTraceDeps "A" "C" ["A", "B", "C", "A", "C"] =
        [(Temporal.DependencyType.eventual, Temporal.Direction.forward),
          (Temporal.DependencyType.eventual, Temporal.Direction.forward),
          (Temporal.DependencyType.direct, Temporal.Direction.backward),
          (Temporal.DependencyType.direct, Temporal.Direction.forward)]
    ∧ ¬ (([(Temporal.DependencyType.eventual, Temporal.Direction.forward),
          (Temporal.DependencyType.direct, Temporal.Direction.forward)] :
            Multiset (Temporal.DependencyType × Temporal.Direction))
        = ↑(Temporal.allPairsTraceDeps "A" "C" ["A", "B", "C", "A", "C"]))
    ∧ Temporal.classify_dependencies "A" "C"
        (Temporal.allPairsTraceDeps "A" "C" ["A", "B", "C", "A", "C"]) 1 = none :=
  ⟨by decide, by decide, by decide, by decide, by decide⟩

/-- C1, amended: per trace, `check_temporal_dependency` merges the sorted
from- and to-position lists with two pointers (not all combinations):
while both lists are nonempty, a smaller from-position records (Direct if
adjacent else Eventual, Forward) and consumes both heads, a smaller
to-position records (Direct if adjacent else Eventual, Backward) and
consumes only the to-head; each leftover from-position records
(Eventual, Forward) when the last to-position lies after it (nothing
otherwise); each leftover to-position records (Eventual, Forward) when
the last from-position lies before it and (Eventual, Backward) otherwise.
The per-trace classifications are concatenated over all traces before
thresholding, and no panic occurs. -/
theorem claim1_amended («from» «to» : String) (traces : List (List String))
    (threshold : ℚ) :
    Temporal.check_temporal_dependency «from» «to» traces threshold =
      .ok (Temporal.classify_dependencies «from» «to»
        ((traces.map (Temporal.traceDepsSpec «from» «to»)).flatten) threshold) :=
  Temporal.check_temporal_dependency_eq_spec «from» «to» traces threshold

/-- C2, counterexample: at threshold 1/2 on the traces `[A B]` and `[B A]`
the aggregate is one Forward and one Backward classification, yet
`check_temporal_dependency` reports a Forward dependency: the opposite
direction's count is 1, not 0, and forward_count is not greater than
backward_count (the claim would report no dependency, or direction
Backward). -/
theorem claim2_counterexample :
    Temporal.check_temporal_dependency "A" "B" [["A", "B"], ["B", "A"]] (1/2) =
        .ok (some ⟨"A", "B", Temporal.DependencyType.direct,
          Temporal.Direction.forward⟩)
    ∧ Temporal.check_trace_dependency "A" "B" ["A", "B"] =
        .ok [(Temporal.DependencyType.direct, Temporal.Direction.forward)]
    ∧ Temporal.check_trace_dependency "A" "B" ["B", "A"] =
        .ok [(Temporal.DependencyType.direct, Temporal.Direction.backward)]
    ∧ (([(Temporal.DependencyType.direct, Temporal.Direction.forward),
          (Temporal.DependencyType.direct, Temporal.Direction.backward)].filter
          (fun d => d.2 = Temporal.Direction.backward)).length ≠ 0)
    ∧ ¬ (([(Temporal.DependencyType.direct, Temporal.Direction.forward),
          (Temporal.DependencyType.direct, Temporal.Direction.backward)].filter
          (fun d => d.2 = Temporal.Direction.backward)).length
        < ([(Temporal.DependencyType.direct, Temporal.Direction.forward),
          (Temporal.DependencyType.direct, Temporal.Direction.backward)].filter
          (fun d => d.2 = Temporal.Direction.forward)).length) :=
  ⟨by decide, by decide, by decide, by decide, by decide⟩

/-- C2, amended: for every non-empty aggregate and every threshold, a
dependency is reported iff the dominant direction's share of all
classifications is at least the threshold — the opposite direction's
count need not be zero.  The direction is Forward iff the forward share
reaches the threshold (so a tie at the threshold resolves to Forward),
else Backward; the kind is Eventual iff any recorded classification is
Eventual, else Direct. -/
theorem claim2_amended («from» «to» : String)
    (deps : List (Temporal.DependencyType × Temporal.Direction)) (θ : ℚ)
    (h : deps ≠ []) :
    Temporal.classify_dependencies «from» «to» deps θ =
      if θ ≤ ((max (deps.filter (fun d => d.2 = Temporal.Direction.forward)).length
            (deps.filter (fun d => d.2 = Temporal.Direction.backward)).length : ℕ) : ℚ)
          / (deps.length : ℚ) then
        some ⟨«from», «to»,
          (if deps.any (fun d => d.1 = Temporal.DependencyType.eventual) then
            Temporal.DependencyType.eventual else Temporal.DependencyType.direct),
          (if θ ≤ ((deps.filter (fun d => d.2 = Temporal.Direction.forward)).length : ℚ)
              / (deps.length : ℚ) then
            Temporal.Direction.forward else Temporal.Direction.backward)⟩
      else none := by
  have hT : (0 : ℚ) < (deps.length : ℚ) := by
    exact_mod_cast List.length_pos.mpr h
  have hFB := Temporal.length_filter_forward_add_backward deps
  have hFBq : ((deps.filter (fun d => d.2 = Temporal.Direction.forward)).length : ℚ)
      + ((deps.filter (fun d => d.2 = Temporal.Direction.backward)).length : ℚ)
      = (deps.length : ℚ) := by exact_mod_cast hFB
  rw [Temporal.classify_dependencies_eq]
  rw [if_neg (by simpa [List.isEmpty_iff] using h)]
  set F := ((deps.filter (fun d => d.2 = Temporal.Direction.forward)).length : ℚ) with hFdef
  set B := ((deps.filter (fun d => d.2 = Temporal.Direction.backward)).length : ℚ) with hBdef
  have hsub : (deps.length : ℚ) - F = B := by linarith
  have hmax : ((max (deps.filter (fun d => d.2 = Temporal.Direction.forward)).length
      (deps.filter (fun d => d.2 = Temporal.Direction.backward)).length : ℕ) : ℚ)
      = max F B := by
    rw [hFdef, hBdef]
    push_cast
    rfl
  rw [hmax, hsub]
  by_cases hF : θ ≤ F / (deps.length : ℚ)
  · have hmF : θ ≤ max F B / (deps.length : ℚ) :=
      le_trans hF ((div_le_div_iff_of_pos_right hT).mpr (le_max_left F B))
    rw [if_pos hF, if_pos hmF, if_pos hF]
  · by_cases hB : θ ≤ B / (deps.length : ℚ)
    · have hmB : θ ≤ max F B / (deps.length : ℚ) :=
        le_trans hB ((div_le_div_iff_of_pos_right hT).mpr (le_max_right F B))
      rw [if_neg hF, if_pos hB, if_pos hmB, if_neg hF]
    · have hmN : ¬ θ ≤ max F B / (deps.length : ℚ) := by
        rcases max_choice F B with hm | hm <;> rw [hm] <;> assumption
      rw [if_neg hF, if_neg hB, if_neg hmN]

theorem claim2_amended_witness :
    Temporal.classify_dependencies "A" "B"
      [(Temporal.DependencyType.direct, Temporal.Direction.forward),
        (Temporal.DependencyType.direct, Temporal.Direction.backward)] (1/2) =
      some ⟨"A", "B", Temporal.DependencyType.direct, Temporal.Direction.forward⟩ := by
  rw [claim2_amended "A" "B" _ _ (by decide)]
  decide

/-- C3, counterexample: swapping the arguments of
`check_temporal_dependency` can turn None into a non-None result.  On the
single trace `C A C` at threshold 1, (A, C) yields None while (C, A)
yields Direct/Forward — neither a mirrored pair of results nor None from
both calls. -/
theorem claim3_counterexample :
    Temporal.check_temporal_dependency "A" "C" [["C", "A", "C"]] 1 = .ok none
    ∧ Temporal.check_temporal_dependency "C" "A" [["C", "A", "C"]] 1 =
        .ok (some ⟨"C", "A", Temporal.DependencyType.direct,
          Temporal.Direction.forward⟩) :=
  ⟨by decide, by decide⟩

/-- C3, amended: `check_existential_dependency` alone is symmetric in the
claimed sense — swapping `from` and `to` yields the same result with the
two activities exchanged and, for the Implication kind only, the
direction mirrored (Equivalence and NegatedEquivalence keep direction
Forward); the threshold assertion and the None case are preserved
exactly.  `check_temporal_dependency` has no such symmetry (see the
counterexample). -/
theorem claim3_amended (a b : String) (traces : List (List String)) (θ : ℚ) :
    Existential.check_existential_dependency b a traces θ =
      (Existential.check_existential_dependency a b traces θ).map
        (Option.map Existential.mirror) := by
  unfold Existential.check_existential_dependency
  by_cases hr : ¬ (0 ≤ θ ∧ θ ≤ 1)
  · rw [if_pos hr, if_pos hr]
    rfl
  · rw [if_neg hr, if_neg hr]
    rw [Existential.negated_equivalence_symm b a]
    cases hab : Existential.has_implication a b traces θ <;>
    cases hba : Existential.has_implication b a traces θ <;>
    cases hneg : Existential.negated_equivalence a b traces θ <;>
      simp [hab, hba, hneg, Existential.mirror, Except.map]

/-- C4: with a non-empty trace set and a threshold in [0,1],
`check_existential_dependency` returns exactly what the claim describes:
`implies(a,b)` is the ratio (traces missing `a` + traces containing both)
/ total ≥ threshold; the kind is Equivalence when both implications hold
and Implication when exactly one holds, with direction Forward iff
`implies(from,to)` holds; NegatedEquivalence (direction Forward) is
tried only when neither implication holds; otherwise None. -/
theorem claim4 (a b : String) (traces : List (List String)) (θ : ℚ)
    (h0 : 0 ≤ θ) (h1 : θ ≤ 1) (hne : traces ≠ []) :
    Existential.check_existential_dependency a b traces θ = .ok (
      if Existential.impliesSpec a b traces θ then
        some ⟨a, b,
          (if Existential.impliesSpec b a traces θ then
            Existential.DependencyType.equivalence
          else Existential.DependencyType.implication),
          Existential.Direction.forward⟩
      else if Existential.impliesSpec b a traces θ then
        some ⟨a, b, Existential.DependencyType.implication,
          Existential.Direction.backward⟩
      else if Existential.negEqSpec a b traces θ then
        some ⟨a, b, Existential.DependencyType.negatedEquivalence,
          Existential.Direction.forward⟩
      else none) := by
  have hiab := Existential.has_implication_iff a b traces θ hne
  have hiba := Existential.has_implication_iff b a traces θ hne
  have hin := Existential.negated_equivalence_iff a b traces θ hne
  unfold Existential.check_existential_dependency
  rw [if_neg (not_not_intro ⟨h0, h1⟩)]
  cases hab : Existential.has_implication a b traces θ <;>
  cases hba : Existential.has_implication b a traces θ <;>
  cases hneg : Existential.negated_equivalence a b traces θ <;>
    rw [hab] at hiab <;> rw [hba] at hiba <;> rw [hneg] at hin <;>
    simp only [Bool.false_eq_true, eq_self_iff_true, false_iff, true_iff]
      at hiab hiba hin <;>
    simp [hab, hba, hneg, hiab, hiba, hin]

theorem claim4_witness :
    Existential.check_existential_dependency "A" "D"
      [["A", "B", "C", "D"], ["A", "C", "B", "D"], ["A", "E", "D"], ["A", "D"]] 1 =
      .ok (some ⟨"A", "D", Existential.DependencyType.equivalence,
        Existential.Direction.forward⟩) := by
  rw [claim4 "A" "D"
    [["A", "B", "C", "D"], ["A", "C", "B", "D"], ["A", "E", "D"], ["A", "D"]] 1
    (by decide) (by decide) (by decide)]
  decide

/-- C5, counterexample: at threshold 2 (outside [0,1]),
`check_existential_dependency` fails with its assertion, but
`check_temporal_dependency` performs no threshold validation and returns
an ordinary result, so the claim that both fail fast is false. -/
theorem claim5_counterexample :
    ¬ (0 ≤ (2 : ℚ) ∧ (2 : ℚ) ≤ 1)
    ∧ Temporal.check_temporal_dependency "A" "B" [["A", "B"]] 2 = .ok none
    ∧ Existential.check_existential_dependency "A" "B" [["A", "B"]] 2 =
        .error "Threshold must be between 0 and 1" :=
  ⟨by decide, by decide, by decide⟩

/-- C5, amended: only `check_existential_dependency` fails fast with an
assertion when the threshold lies outside [0,1];
`check_temporal_dependency` performs no threshold validation and always
returns an ordinary (non-panicking) result. -/
theorem claim5_amended («from» «to» : String) (traces : List (List String))
    (θ : ℚ) (h : ¬ (0 ≤ θ ∧ θ ≤ 1)) :
    Existential.check_existential_dependency «from» «to» traces θ =
        .error "Threshold must be between 0 and 1"
    ∧ Temporal.check_temporal_dependency «from» «to» traces θ =
        .ok (Temporal.classify_dependencies «from» «to»
          ((traces.map (Temporal.traceDepsSpec «from» «to»)).flatten) θ) := by
  constructor
  · unfold Existential.check_existential_dependency
    rw [if_pos h]
  · exact Temporal.check_temporal_dependency_eq_spec «from» «to» traces θ

theorem claim5_amended_witness :
    Existential.check_existential_dependency "A" "B" [["A", "B"]] 2 =
        .error "Threshold must be between 0 and 1"
    ∧ Temporal.check_temporal_dependency "A" "B" [["A", "B"]] 2 =
        .ok (Temporal.classify_dependencies "A" "B"
          (([["A", "B"]].map (Temporal.traceDepsSpec "A" "B")).flatten) 2) :=
  claim5_amended "A" "B" [["A", "B"]] 2 (by decide)

/-- C6: in `ExtendedPrefixAutomaton::build`, when no transition exists from
the resolved predecessor with the event's symbol, the newly created state
(id `s{number of existing states}`) holds exactly the processed event and
its partition is: 1 when the predecessor is the root; else one greater
than the current maximum partition number across all states when the
predecessor already has an outgoing transition; else the predecessor's
own partition number (`unwrap_or(0)` when it has none). -/
theorem claim6 (epa : ExtendedPrefixAutomaton) (la : String → Option String)
    (ev : Event) (p : String)
    (hp : (ev.predecessor.bind la).getD epa.root = p)
    (hnew : epa.transitions.find? (fun t => t.1 = p ∧ t.2.1 = ev.activity) = none) :
    mapLookup (buildStep (epa, la) ev).1.states
        ("s" ++ toString epa.states.length)
      = some ⟨some (
            if p = epa.root then 1
            else if (∃ t ∈ epa.transitions, t.1 = p) then maxPartition epa + 1
            else ((mapLookup epa.states p).bind (fun s => s.partition)).getD 0),
          [ev]⟩ := by
  subst hp
  unfold buildStep
  dsimp only
  rw [hnew]
  dsimp only [Option.map_none']
  rw [mapLookup_mapUpdate_self, mapLookup_mapInsert_self]
  simp [insertEvent, List.any_eq_true]
  simp only [List.any_eq_true, decide_eq_true_eq]

theorem claim6_witness :
    mapLookup (buildStep (ExtendedPrefixAutomaton.new, fun _ => none)
        ⟨"c1", 'a', none⟩).1.states "s1"
      = some { partition := some 1, sequences := [⟨"c1", 'a', none⟩] } := by
  have h := claim6 ExtendedPrefixAutomaton.new (fun _ => none)
    ⟨"c1", 'a', none⟩ "root" rfl rfl
  exact h.trans (by decide)

/-- C7: the automaton built by `ExtendedPrefixAutomaton::build` is
deterministic — its transition list never contains two transitions with
the same source and symbol (for any input log, hence for every reachable
intermediate build state, each being the result of `build` on a prefix of
the input) — and when a transition from the resolved predecessor with the
event's symbol already exists in a build step, its target is reused: the
transition list and the state-key list are left unchanged. -/
theorem claim7 :
    (∀ plain_log : List (List Event),
      ((ExtendedPrefixAutomaton.build plain_log).transitions).Pairwise
        (fun t1 t2 => ¬ (t1.1 = t2.1 ∧ t1.2.1 = t2.2.1)))
    ∧ (∀ (epa : ExtendedPrefixAutomaton) (la : String → Option String)
        (ev : Event) (p target : String),
        (ev.predecessor.bind la).getD epa.root = p →
        (epa.transitions.find? (fun t => t.1 = p ∧ t.2.1 = ev.activity)).map
            (fun t => t.2.2) = some target →
        (buildStep (epa, la) ev).1.transitions = epa.transitions
        ∧ (buildStep (epa, la) ev).1.states.map (fun kv => kv.1)
            = epa.states.map (fun kv => kv.1)) := by
  constructor
  · intro log
    exact foldl_trace_buildStep_pairwise log _ List.Pairwise.nil
  · intro epa la ev p target hp hfound
    subst hp
    unfold buildStep
    dsimp only
    rw [hfound]
    dsimp only
    exact ⟨rfl, mapUpdate_keys _ _ _⟩

theorem claim7_witness :
    ((ExtendedPrefixAutomaton.build [[⟨"c1", 'a', none⟩, ⟨"c1", 'b', some "c1"⟩]]).transitions).Pairwise
      (fun t1 t2 => ¬ (t1.1 = t2.1 ∧ t1.2.1 = t2.2.1))
    ∧ (buildStep (ExtendedPrefixAutomaton.build [[⟨"c1", 'a', none⟩]], fun _ => none)
        ⟨"c2", 'a', none⟩).1.transitions
      = (ExtendedPrefixAutomaton.build [[⟨"c1", 'a', none⟩]]).transitions :=
  ⟨claim7.1 [[⟨"c1", 'a', none⟩, ⟨"c1", 'b', some "c1"⟩]],
    (claim7.2 (ExtendedPrefixAutomaton.build [[⟨"c1", 'a', none⟩]]) (fun _ => none)
      ⟨"c2", 'a', none⟩ "root" "s1" (by decide) (by decide)).1⟩

/-- C8: `variant_entropy` equals `S·log10(S) − Σ_p n_p·log10(n_p)`, where
`S` is the state count minus one when more than one state exists and the
raw state count otherwise, and `n_p` is the number of partitioned states
carrying partition number `p` (the root carries no partition and is
excluded). -/
theorem claim8 (epa : ExtendedPrefixAutomaton) :
    variant_entropy epa =
      (if 1 < epa.states.length then ((epa.states.length : ℝ) - 1)
        else (epa.states.length : ℝ))
        * Real.logb 10
          (if 1 < epa.states.length then ((epa.states.length : ℝ) - 1)
            else (epa.states.length : ℝ))
      - ∑ p ∈ (epa.states.filterMap (fun kv => kv.2.partition)).toFinset,
          (((epa.states.filterMap (fun kv => kv.2.partition)).count p : ℝ)
            * Real.logb 10
              ((epa.states.filterMap (fun kv => kv.2.partition)).count p)) := by
  simp only [variant_entropy]
  rw [sum_dedup_eq_sum_toFinset]
  simp only [Nat.one_lt_cast]

/-- C9: raising the threshold never creates a dependency — for thresholds
t1 < t2 in [0,1] and a fixed trace set, any activity pair for which
`check_temporal_dependency` (resp. `check_existential_dependency`)
reports a dependency at t2 also reports one at t1. -/
theorem claim9 («from» «to» : String) (traces : List (List String))
    (t1 t2 : ℚ) (h0 : 0 ≤ t1) (h12 : t1 < t2) (h2 : t2 ≤ 1) :
    ((Temporal.check_temporal_dependency «from» «to» traces t2).toOption.join.isSome = true →
      (Temporal.check_temporal_dependency «from» «to» traces t1).toOption.join.isSome = true)
    ∧ ((Existential.check_existential_dependency «from» «to» traces t2).toOption.join.isSome = true →
      (Existential.check_existential_dependency «from» «to» traces t1).toOption.join.isSome = true) := by
  constructor
  · intro h
    rw [Temporal.check_temporal_dependency_eq_spec] at h ⊢
    simp only [Except.toOption, Option.join] at h ⊢
    obtain ⟨d, hd⟩ := Option.isSome_iff_exists.mp h
    exact Temporal.classify_dependencies_mono (le_of_lt h12) hd
  · intro h
    exact Existential.check_existential_dependency_mono h0 (le_of_lt h12) h2 h

theorem claim9_witness :
    (Temporal.check_temporal_dependency "A" "B" [["A", "B"]] (1/2)).toOption.join.isSome = true
    ∧ (Existential.check_existential_dependency "A" "B" [["A", "B"]] (1/2)).toOption.join.isSome = true :=
  ⟨(claim9 "A" "B" [["A", "B"]] (1/2) 1 (by decide) (by decide) (by decide)).1
      (by decide),
    (claim9 "A" "B" [["A", "B"]] (1/2) 1 (by decide) (by decide) (by decide)).2
      (by decide)⟩

/-- C10: the self-pair call `check_temporal_dependency(a, a, traces, t)`
returns None for every trace set and every threshold in [0,1]: the
position-collecting loop records occurrences of `a` only as
from-positions (the to-position branch is shadowed by the `else if`), so
no classification is produced and the empty aggregate classifies to
None (and no panic occurs). -/
theorem claim10 (a : String) (traces : List (List String)) (θ : ℚ)
    (h0 : 0 ≤ θ) (h1 : θ ≤ 1) :
    Temporal.check_temporal_dependency a a traces θ = .ok none := by
  rw [Temporal.check_temporal_dependency_eq_spec]
  have hmap : traces.map (Temporal.traceDepsSpec a a) = traces.map (fun _ => []) :=
    List.map_congr_left (fun tr _ => Temporal.traceDepsSpec_self a tr)
  rw [hmap]
  have hflat : ((traces.map (fun _ =>
      ([] : List (Temporal.DependencyType × Temporal.Direction)))).flatten) = [] := by
    simp
  rw [hflat]
  rfl

theorem claim10_witness :
    Temporal.check_temporal_dependency "B" "B" [["A", "B", "C", "B"]] 1 = .ok none :=
  claim10 "B" [["A", "B", "C", "B"]] 1 (by decide) (by decide)

end

end Egypt
